import Mathlib

/-!
Verification of the git-pilot changelist/shelve core.

This file gives a shallow embedding of the data-management core of the
repository (the `FileChange` / `Changelist` / `ShelvedFile` / `Shelf` models,
the `ChangelistStore` and `ShelveStore` registries, the status-classification
fallback of `FileStatusService`, and the unified-diff parser of
`GutterDecorationService`), and proves or refutes the specification claims
about them.

Modelling conventions:
- JavaScript `Map` objects (which preserve insertion order) are embedded as
  association lists `List (String × _)` with `mapSet` / `mapGet` / `mapDelete`
  mirroring `Map.set` / `Map.get` / `Map.delete`.
- Methods that `throw` are embedded as `Except String _`.
- The filesystem is a snapshot `Fs := String → Option String` (path to
  content); `fs.readFile` failing is `none`, `fs.writeFile` is a functional
  update.  `Date` timestamps (`createdAt` / `modifiedAt` / shelf `timestamp`)
  are reads of an external clock and are not part of any claim, so those
  fields are omitted from the records.
-/

namespace GitPilot

/-- Characterwise embedding of JavaScript `String.prototype.trim`, written by
structural recursion on the character list so that the kernel can evaluate it
on concrete inputs. -/
def jsTrim (s : String) : String :=
  ⟨((s.data.dropWhile Char.isWhitespace).reverse.dropWhile Char.isWhitespace).reverse⟩

/-- Splitting a character list at every occurrence of a separator character. -/
def splitOnChar (sep : Char) : List Char → List (List Char)
  | [] => [[]]
  | c :: cs =>
    let rest := splitOnChar sep cs
    if c = sep then [] :: rest
    else
      match rest with
      | [] => [[c]]
      | h :: t => (c :: h) :: t

/-- Embedding of JavaScript `content.split(sep)` for a one-character
separator (the source only ever splits on a newline). -/
def jsSplit (s : String) (sep : Char) : List String :=
  (splitOnChar sep s.data).map List.asString

/-- Embedding of JavaScript `String.prototype.startsWith`. -/
def jsStartsWith (s pre : String) : Bool :=
  pre.data.isPrefixOf s.data

/-- Status enum of `src/models/fileChange.ts` (`FileChangeStatus`). -/
inductive FileChangeStatus
  | Modified
  | Added
  | Deleted
  | Renamed
  | Copied
  | Untracked
  | Conflicted
deriving DecidableEq

/-- Value model of `FileChange` (`src/models/fileChange.ts`).  The source
stores `_isSelected` as a private field mutated only on freshly constructed
instances; here it is an ordinary field of the value. -/
structure FileChange where
  path : String
  relativePath : String
  status : FileChangeStatus
  isStaged : Bool := false
  isSelected : Bool := false
  originalPath : Option String := none
deriving DecidableEq

/-- Model of `Changelist` (`src/models/changelist.ts`).  The `createdAt` and
`modifiedAt` `Date` fields are external-clock reads and are omitted. -/
structure Changelist where
  id : String
  name : String
  description : Option String := none
  files : List FileChange := []
  isDefault : Bool := false
  isActive : Bool := false
deriving DecidableEq

namespace Changelist

/-- `Changelist.addFile`: returns `this` unchanged when some file already has
the same path, otherwise appends the file. -/
def addFile (cl : Changelist) (file : FileChange) : Changelist :=
  if cl.files.any (fun f => f.path = file.path) then cl
  else { cl with files := cl.files ++ [file] }

/-- `Changelist.removeFile`: filters the path out; returns `this` unchanged
when nothing was removed. -/
def removeFile (cl : Changelist) (filePath : String) : Changelist :=
  let filteredFiles := cl.files.filter (fun f => f.path ≠ filePath)
  if filteredFiles.length = cl.files.length then cl
  else { cl with files := filteredFiles }

/-- `Changelist.rename`. -/
def rename (cl : Changelist) (newName : String) : Changelist :=
  if cl.name = newName then cl else { cl with name := newName }

/-- `Changelist.setActive`. -/
def setActive (cl : Changelist) (active : Bool) : Changelist :=
  if cl.isActive = active then cl else { cl with isActive := active }

/-- `Changelist.hasFiles`. -/
def hasFiles (cl : Changelist) : Bool :=
  cl.files.length > 0

/-- `Changelist.fileCount`. -/
def fileCount (cl : Changelist) : Nat :=
  cl.files.length

/-- `Changelist.createDefault`. -/
def createDefault : Changelist :=
  { id := "default"
    name := "Default Changelist"
    description := some "Default changelist for organizing changes"
    files := []
    isDefault := true
    isActive := true }

end Changelist

/-- JS `Map.set` on an insertion-ordered association list: replace in place
when the key is present, append otherwise. -/
def mapSet {α : Type} (m : List (String × α)) (k : String) (v : α) :
    List (String × α) :=
  if m.any (fun p => p.1 = k) then
    m.map (fun p => if p.1 = k then (k, v) else p)
  else m ++ [(k, v)]

/-- JS `Map.get` on an association list. -/
def mapGet {α : Type} (m : List (String × α)) (k : String) : Option α :=
  (m.find? (fun p => p.1 = k)).map Prod.snd

/-- JS `Map.delete` on an association list. -/
def mapDelete {α : Type} (m : List (String × α)) (k : String) :
    List (String × α) :=
  m.filter (fun p => p.1 ≠ k)

/-- State of `ChangelistStore` (`src/stores/changelistStore.ts`, shipped here
as `src/unnamed/part_008`): the `id → Changelist` map plus the active-id
pointer. -/
structure ChangelistStore where
  changelists : List (String × Changelist)
  activeChangelistId : String
deriving DecidableEq

namespace ChangelistStore

/-- The constructor state: a single default changelist, active id `default`. -/
def initialStore : ChangelistStore :=
  { changelists := [("default", Changelist.createDefault)]
    activeChangelistId := "default" }

/-- `ChangelistStore.getAllChangelists`. -/
def getAllChangelists (st : ChangelistStore) : List Changelist :=
  st.changelists.map Prod.snd

/-- Number of changelists in the store whose `isActive` flag is set. -/
def activeCount (st : ChangelistStore) : Nat :=
  st.getAllChangelists.countP (fun cl => cl.isActive)

/-- `ChangelistStore.createChangelist`.  `Changelist.generateId()` draws on
`Date.now()` and `Math.random()`, so the fresh id is passed in as an input. -/
def createChangelist (st : ChangelistStore) (freshId name : String)
    (description : Option String) : Except String ChangelistStore :=
  if jsTrim name = "" then
    Except.error "Changelist name cannot be empty"
  else if st.changelists.any (fun p => p.2.name = jsTrim name) then
    Except.error "Changelist with this name already exists"
  else
    Except.ok { st with
      changelists := mapSet st.changelists freshId
        { id := freshId, name := jsTrim name, description := description.map jsTrim } }

/-- `ChangelistStore.deleteChangelist`: refuses `default` and unknown ids,
folds the victim's files into the default changelist with `addFile`, reverts
the active pointer to `default` when needed, and removes the entry.  The
source reads the default changelist through a non-null assertion; the
`error` branch below models the crash that assertion would produce and is
unreachable from `initialStore`. -/
def deleteChangelist (st : ChangelistStore) (id : String) :
    Except String ChangelistStore :=
  if id = "default" then
    Except.error "Cannot delete default changelist"
  else
    match mapGet st.changelists id with
    | none => Except.error "Changelist not found"
    | some changelist =>
      if changelist.hasFiles then
        match mapGet st.changelists "default" with
        | none => Except.error "default changelist missing"
        | some defaultChangelist =>
          let updatedDefault := changelist.files.foldl Changelist.addFile defaultChangelist
          Except.ok
            { changelists :=
                mapDelete (mapSet st.changelists "default" updatedDefault) id
              activeChangelistId :=
                if st.activeChangelistId = id then "default" else st.activeChangelistId }
      else
        Except.ok
          { changelists := mapDelete st.changelists id
            activeChangelistId :=
              if st.activeChangelistId = id then "default" else st.activeChangelistId }

/-- `ChangelistStore.renameChangelist`. -/
def renameChangelist (st : ChangelistStore) (id newName : String) :
    Except String ChangelistStore :=
  if jsTrim newName = "" then
    Except.error "Changelist name cannot be empty"
  else
    match mapGet st.changelists id with
    | none => Except.error "Changelist not found"
    | some changelist =>
      if st.changelists.any (fun p => p.1 ≠ id ∧ p.2.name = jsTrim newName) then
        Except.error "Changelist with this name already exists"
      else
        Except.ok { st with
          changelists := mapSet st.changelists id (changelist.rename (jsTrim newName)) }

/-- `ChangelistStore.moveFiles`: no-op when source and target ids coincide,
otherwise checks both ids, silently skips paths absent from the source, and
moves the found files with `removeFile` / `addFile`. -/
def moveFiles (st : ChangelistStore) (filePaths : List String)
    (fromId toId : String) : Except String ChangelistStore :=
  if fromId = toId then Except.ok st
  else
    match mapGet st.changelists fromId with
    | none => Except.error "Source changelist not found"
    | some fromChangelist =>
      match mapGet st.changelists toId with
      | none => Except.error "Target changelist not found"
      | some toChangelist =>
        let filesToMove := fromChangelist.files.filter (fun f => filePaths.contains f.path)
        if filesToMove.length = 0 then Except.ok st
        else
          let updatedFrom := filesToMove.foldl (fun cl f => cl.removeFile f.path) fromChangelist
          let updatedTo := filesToMove.foldl Changelist.addFile toChangelist
          Except.ok { st with
            changelists := mapSet (mapSet st.changelists fromId updatedFrom) toId updatedTo }

/-- `ChangelistStore.setActiveChangelist`: checks existence, then rewrites the
`isActive` flag of every entry to `key == id` and moves the pointer. -/
def setActiveChangelist (st : ChangelistStore) (id : String) :
    Except String ChangelistStore :=
  if st.changelists.any (fun p => p.1 = id) then
    Except.ok
      { changelists :=
          st.changelists.map (fun p => (p.1, p.2.setActive (decide (p.1 = id))))
        activeChangelistId := id }
  else Except.error "Changelist not found"

/-- `ChangelistStore.addFileToChangelist`. -/
def addFileToChangelist (st : ChangelistStore) (file : FileChange)
    (changelistId : String) : Except String ChangelistStore :=
  match mapGet st.changelists changelistId with
  | none => Except.error "Changelist not found"
  | some changelist =>
    Except.ok { st with
      changelists := mapSet st.changelists changelistId (changelist.addFile file) }

/-- `ChangelistStore.removeFileFromChangelist`. -/
def removeFileFromChangelist (st : ChangelistStore) (file : FileChange)
    (changelistId : String) : Except String ChangelistStore :=
  match mapGet st.changelists changelistId with
  | none => Except.error "Changelist not found"
  | some changelist =>
    Except.ok { st with
      changelists := mapSet st.changelists changelistId (changelist.removeFile file.path) }

end ChangelistStore

/-- The store operations the specification's invariant claims quantify over.
`updateChangelist` takes an arbitrary updater function and is omitted: it can
rewrite a changelist wholesale, so no flag invariant can survive it. -/
inductive StoreOp
  | create (freshId name : String) (description : Option String)
  | delete (id : String)
  | rename (id newName : String)
  | move (filePaths : List String) (fromId toId : String)
  | setActive (id : String)
  | addFile (file : FileChange) (changelistId : String)
  | removeFile (file : FileChange) (changelistId : String)

/-- Run one operation against the store.  Every operation of the source
performs its validations before its first mutation, so a thrown operation
leaves the store exactly as it was. -/
def applyOp (st : ChangelistStore) (op : StoreOp) : ChangelistStore :=
  match op with
  | StoreOp.create freshId name description =>
    match st.createChangelist freshId name description with
    | Except.ok st2 => st2
    | Except.error _ => st
  | StoreOp.delete id =>
    match st.deleteChangelist id with
    | Except.ok st2 => st2
    | Except.error _ => st
  | StoreOp.rename id newName =>
    match st.renameChangelist id newName with
    | Except.ok st2 => st2
    | Except.error _ => st
  | StoreOp.move filePaths fromId toId =>
    match st.moveFiles filePaths fromId toId with
    | Except.ok st2 => st2
    | Except.error _ => st
  | StoreOp.setActive id =>
    match st.setActiveChangelist id with
    | Except.ok st2 => st2
    | Except.error _ => st
  | StoreOp.addFile file changelistId =>
    match st.addFileToChangelist file changelistId with
    | Except.ok st2 => st2
    | Except.error _ => st
  | StoreOp.removeFile file changelistId =>
    match st.removeFileFromChangelist file changelistId with
    | Except.ok st2 => st2
    | Except.error _ => st

/-- Run a sequence of operations from a starting state. -/
def applyOps (st : ChangelistStore) (ops : List StoreOp) : ChangelistStore :=
  ops.foldl applyOp st

end GitPilot

namespace GitPilot

/-- A snapshot of the filesystem: path to file content, `none` when reading
the path throws. -/
def Fs : Type := String → Option String

/-- Writing a file: `fs.writeFile(path, content)` as a functional update. -/
def writeFile (fs : Fs) (path content : String) : Fs :=
  fun q => if q = path then some content else fs q

/-- Model of `ShelvedFile` (`src/models/shelvedFile.ts`). -/
structure ShelvedFile where
  path : String
  relativePath : String
  originalContent : String
  shelvedContent : String
  status : FileChangeStatus
  encoding : String := "utf8"
deriving DecidableEq

namespace ShelvedFile

/-- `ShelvedFile.canRestore`: the current on-disk content equals the captured
original content. -/
def canRestore (sf : ShelvedFile) (currentContent : String) : Bool :=
  sf.originalContent = currentContent

/-- The conflict message the source pushes for line index `i` (0-based). -/
def conflictMessage (i : Nat) : String :=
  "Line " ++ toString (i + 1) ++ ": conflicting changes"

/-- `ShelvedFile.detectConflicts`: empty when `canRestore` holds; otherwise a
line `i` conflicts when the current line differs from the original line and
the shelved line also differs from the original line (`arr[i] || ''` reads an
out-of-range index as the empty string); when no line conflicts but the line
counts of original and current differ, a single length-change message is
reported. -/
def detectConflicts (sf : ShelvedFile) (currentContent : String) : List String :=
  if sf.canRestore currentContent then []
  else
    let originalLines := jsSplit sf.originalContent '\n'
    let currentLines := jsSplit currentContent '\n'
    let shelvedLines := jsSplit sf.shelvedContent '\n'
    let maxLines := max originalLines.length (max currentLines.length shelvedLines.length)
    let conflicts := (List.range maxLines).filterMap (fun i =>
      let originalLine := originalLines.getD i ""
      let currentLine := currentLines.getD i ""
      let shelvedLine := shelvedLines.getD i ""
      if originalLine ≠ currentLine ∧ originalLine ≠ shelvedLine then
        some (conflictMessage i)
      else none)
    if conflicts = [] ∧ originalLines.length ≠ currentLines.length then
      ["File length changed since shelving"]
    else conflicts

end ShelvedFile

/-- Model of `Shelf` (`src/models/shelf.ts`); the `timestamp` `Date` field is
an external-clock read and is omitted. -/
structure Shelf where
  id : String
  name : String
  files : List ShelvedFile
  branch : String
  parentCommit : String
  changelistId : Option String := none
  description : Option String := none
deriving DecidableEq

/-- `UnshelveOptions` of `src/stores/shelveStore.ts` (`src/unnamed/part_008`). -/
structure UnshelveOptions where
  keepShelf : Bool := false
  forceMerge : Bool := false
  selectedFiles : Option (List String) := none

/-- `ConflictDetails` of the shelve store. -/
structure ConflictDetails where
  filePath : String
  conflicts : List String
  canResolve : Bool
deriving DecidableEq

/-- `ConflictReport` of the shelve store. -/
structure ConflictReport where
  hasConflicts : Bool
  conflictingFiles : List String
  canAutoMerge : Bool
  details : List ConflictDetails
deriving DecidableEq

/-- State of `ShelveStore`: the `id → Shelf` map. -/
structure ShelveStore where
  shelves : List (String × Shelf)
deriving DecidableEq

namespace ShelveStore

/-- `ShelveStore.getShelf`. -/
def getShelf (st : ShelveStore) (shelfId : String) : Option Shelf :=
  mapGet st.shelves shelfId

/-- `ShelveStore.getOriginalContent`: the source's placeholder baseline just
re-reads the current file from disk and falls back to the empty string when
the read throws. -/
def getOriginalContent (fs : Fs) (filePath : String) : String :=
  (fs filePath).getD ""

/-- `ShelveStore.createShelvedFile`: reads the current content (a failing
read propagates, hence `Option`), pairs it with the placeholder baseline. -/
def createShelvedFile (fs : Fs) (file : FileChange) : Option ShelvedFile :=
  (fs file.path).map (fun currentContent =>
    { path := file.path
      relativePath := file.relativePath
      originalContent := getOriginalContent fs file.path
      shelvedContent := currentContent
      status := file.status
      encoding := "utf8" })

/-- One step of the `previewUnshelve` loop: accumulate the conflicting
relative paths and the per-file details. -/
def previewStep (fs : Fs) (acc : List String × List ConflictDetails)
    (file : ShelvedFile) : List String × List ConflictDetails :=
  match fs file.path with
  | some currentContent =>
    let conflicts := file.detectConflicts currentContent
    if conflicts.length > 0 then
      (acc.1 ++ [file.relativePath],
       acc.2 ++ [{ filePath := file.relativePath
                   conflicts := conflicts
                   canResolve := conflicts.length = 1 }])
    else acc
  | none =>
    (acc.1,
     acc.2 ++ [{ filePath := file.relativePath
                 conflicts := ["File does not exist in workspace"]
                 canResolve := true }])

/-- `ShelveStore.previewUnshelve`: two-way conflict detection of every
shelved file against the current disk content. -/
def previewUnshelve (fs : Fs) (st : ShelveStore) (shelfId : String) :
    Except String ConflictReport :=
  match mapGet st.shelves shelfId with
  | none => Except.error "Shelf not found"
  | some shelf =>
    let r := shelf.files.foldl (previewStep fs) ([], [])
    Except.ok
      { hasConflicts := r.1.length > 0
        conflictingFiles := r.1
        canAutoMerge := r.2.all (fun d => d.canResolve)
        details := r.2 }

/-- `ShelveStore.restoreFile`.  The source wraps the whole body in
`try ... catch`: the `catch` arm (written for a failing `readFile` on a
missing file) performs `mkdir` and writes the shelved content — and it also
receives the `Cannot restore` error thrown in the no-force branch, so every
control path ends by writing `shelvedContent`. -/
def restoreFile (fs : Fs) (file : ShelvedFile) (forceMerge : Bool) : Fs :=
  let attempt : Except String Fs :=
    if forceMerge then
      Except.ok (writeFile fs file.path file.shelvedContent)
    else
      match fs file.path with
      | none => Except.error "readFile failed"
      | some currentContent =>
        if file.canRestore currentContent then
          Except.ok (writeFile fs file.path file.shelvedContent)
        else
          Except.error "Cannot restore: file has conflicts"
  match attempt with
  | Except.ok fs2 => fs2
  | Except.error _ => writeFile fs file.path file.shelvedContent

/-- `ShelveStore.unshelve`: looks the shelf up, re-runs `previewUnshelve`,
fails when conflicts exist and `forceMerge` is unset, then restores the
selected (or all) files and deletes the shelf unless `keepShelf`.  Returns
the new store state together with the resulting filesystem. -/
def unshelve (fs : Fs) (st : ShelveStore) (shelfId : String)
    (options : UnshelveOptions) : Except String (ShelveStore × Fs) :=
  match mapGet st.shelves shelfId with
  | none => Except.error "Shelf not found"
  | some shelf =>
    match previewUnshelve fs st shelfId with
    | Except.error e => Except.error e
    | Except.ok conflicts =>
      if conflicts.hasConflicts && !options.forceMerge then
        Except.error "Cannot unshelve: conflicts"
      else
        let filesToRestore :=
          match options.selectedFiles with
          | some selected =>
            shelf.files.filter (fun (f : ShelvedFile) => selected.any (fun q => q = f.path))
          | none => shelf.files
        let fs2 := filesToRestore.foldl (fun acc f => restoreFile acc f options.forceMerge) fs
        let st2 :=
          if options.keepShelf then st
          else { shelves := mapDelete st.shelves shelfId }
        Except.ok (st2, fs2)

end ShelveStore

/-- Status enum of `src/services/fileStatusService.ts` (`FileStatus`). -/
inductive FileStatus
  | Untracked
  | Modified
  | Staged
  | Deleted
  | Added
  | Ignored
  | Clean
  | Conflicted
deriving DecidableEq

/-- The per-path buckets of the raw status result returned by
`GitProvider.getStatus` (`IGitStatus`); fields not consulted by the status
classification (current branch, ahead/behind, ...) are omitted. -/
structure GitStatusResult where
  untracked : List String
  modified : List String
  staged : List String
  deleted : List String
  added : List String
  conflicted : List String
deriving DecidableEq

/-- `FileStatusService.detectStatusWithGitProvider`: classifies a path by
probing the buckets in the source's order — untracked, modified, staged,
deleted, added, conflicted — falling through to `Clean`
(`Array.prototype.includes` is membership). -/
def detectStatusWithGitProvider (status : GitStatusResult)
    (relativePath : String) : FileStatus :=
  if status.untracked.any (fun q => q = relativePath) then FileStatus.Untracked
  else if status.modified.any (fun q => q = relativePath) then FileStatus.Modified
  else if status.staged.any (fun q => q = relativePath) then FileStatus.Staged
  else if status.deleted.any (fun q => q = relativePath) then FileStatus.Deleted
  else if status.added.any (fun q => q = relativePath) then FileStatus.Added
  else if status.conflicted.any (fun q => q = relativePath) then FileStatus.Conflicted
  else FileStatus.Clean

/-- The `type` tag of a `LineChange` of `GutterDecorationService`. -/
inductive ChangeType
  | added
  | modified
  | deleted
deriving DecidableEq

/-- `LineChange` of `GutterDecorationService`; JavaScript numbers can go
negative here (a `-` line at the top of a hunk anchors to `c - 2`), so line
numbers are integers. -/
structure LineChange where
  type : ChangeType
  startLine : Int
  endLine : Int
deriving DecidableEq

/-- Leading decimal digits of a character list, and the rest. -/
def takeDigits : List Char → List Char × List Char
  | [] => ([], [])
  | c :: cs =>
    if c.isDigit then
      let r := takeDigits cs
      (c :: r.1, r.2)
    else ([], c :: cs)

/-- Numeric value of a digit string, as `parseInt` computes it on the capture
group of the hunk-header pattern. -/
def digitsToNat (ds : List Char) : Nat :=
  ds.foldl (fun n c => n * 10 + (c.toNat - 48)) 0

/-- Matching the hunk-header pattern of `GutterDecorationService.parseDiff`,
`@@ -\d+,?\d* \+(\d+),?\d* @@`, at the head of a character list; returns the
value of the capture group (the new-file start line).  The digit runs are
taken greedily, which coincides with the regex: a shorter match of a digit
run would put a digit where the pattern next demands a space. -/
def matchHunkFrom : List Char → Option Nat
  | '@' :: '@' :: ' ' :: '-' :: rest =>
    let d1 := takeDigits rest
    if d1.1.isEmpty then none
    else
      let r2 := match d1.2 with
        | ',' :: t => t
        | other => other
      let d2 := takeDigits r2
      match d2.2 with
      | ' ' :: '+' :: r4 =>
        let c1 := takeDigits r4
        if c1.1.isEmpty then none
        else
          let r6 := match c1.2 with
            | ',' :: t => t
            | other => other
          let c2 := takeDigits r6
          match c2.2 with
          | ' ' :: '@' :: '@' :: _ => some (digitsToNat c1.1)
          | _ => none
      | _ => none
  | _ => none

/-- Unanchored search for the hunk-header pattern, like `line.match(...)`:
try every start position from the left and return the first capture. -/
def searchHunk : List Char → Option Nat
  | [] => none
  | c :: cs =>
    match matchHunkFrom (c :: cs) with
    | some n => some n
    | none => searchHunk cs

/-- `GutterDecorationService.addOrExtendChange`: extend the last range in
place when it has the same type and ends on the previous line, otherwise push
a fresh single-line range. -/
def addOrExtendChange (changes : List LineChange) (t : ChangeType) (line : Int) :
    List LineChange :=
  match changes.getLast? with
  | some lastChange =>
    if lastChange.type = t ∧ lastChange.endLine = line - 1 then
      changes.dropLast ++ [{ lastChange with endLine := line }]
    else
      changes ++ [{ type := t, startLine := line, endLine := line }]
  | none => changes ++ [{ type := t, startLine := line, endLine := line }]

/-- The loop state of `parseDiff`: the emitted ranges, the running
current-line counter, and the in-hunk flag. -/
structure ParseState where
  changes : List LineChange
  currentLine : Int
  inHunk : Bool
deriving DecidableEq

/-- One iteration of the `parseDiff` line loop: a line starting with `@@`
enters hunk mode at `c - 1` when the pattern matches and is skipped
otherwise; inside a hunk, `+` emits an added range at the current line and
advances, `-` emits a deleted range one line above without advancing, a `\`
line is ignored, and any other line advances the counter. -/
def processDiffLine (st : ParseState) (line : String) : ParseState :=
  if jsStartsWith line "@@" then
    match searchHunk line.data with
    | some c => { st with currentLine := (c : Int) - 1, inHunk := true }
    | none => st
  else if st.inHunk then
    if jsStartsWith line "+" then
      { st with changes := addOrExtendChange st.changes ChangeType.added st.currentLine
                currentLine := st.currentLine + 1 }
    else if jsStartsWith line "-" then
      { st with changes := addOrExtendChange st.changes ChangeType.deleted (st.currentLine - 1) }
    else if !jsStartsWith line "\\" then
      { st with currentLine := st.currentLine + 1 }
    else st
  else st

/-- `GutterDecorationService.parseDiff`: split the diff text into lines and
run the line loop from an empty state. -/
def parseDiff (diff : String) : List LineChange :=
  ((jsSplit diff '\n').foldl processDiffLine
    { changes := [], currentLine := 0, inHunk := false }).changes

end GitPilot

namespace GitPilot

/-- The spec's worked diff example (section 8 of the specification). -/
def exampleDiffInput : String :=
  "@@ -1,3 +1,4 @@\n unchanged\n-removed line\n+added line\n+second added"

/-- A well-formed single-hunk diff deleting two adjacent lines after one
context line; used to refute the no-overlapping-ranges contract. -/
def twoDeletionsDiffInput : String :=
  "@@ -1,3 +1,2 @@\n x\n-a\n-b"

/-- Overlap of two line ranges (they share at least one line). -/
def rangesOverlap (r s : LineChange) : Bool :=
  r.startLine ≤ s.endLine && s.startLine ≤ r.endLine

/-- No two ranges of the list overlap. -/
def noOverlaps : List LineChange → Bool
  | [] => true
  | r :: rest => rest.all (fun s => !(rangesOverlap r s)) && noOverlaps rest

/-- A shelved file for the unshelve failing input: the captured original is
`a\nb`, the shelved edit is `A\nb`. -/
def conflictShelvedFile : ShelvedFile :=
  { path := "/w/f.txt"
    relativePath := "f.txt"
    originalContent := "a\nb"
    shelvedContent := "A\nb"
    status := FileChangeStatus.Modified }

/-- Disk state for the unshelve failing input: the working tree moved to
`a\nc` after shelving, so `canRestore` is false, yet line 2 does not count as
a conflict because the shelved copy kept `b` there. -/
def conflictFs : Fs :=
  fun p => if p = "/w/f.txt" then some "a\nc" else none

/-- Shelve store holding the single shelf for the unshelve failing input. -/
def conflictShelveStore : ShelveStore :=
  { shelves :=
      [("s1",
        { id := "s1", name := "WIP", files := [conflictShelvedFile],
          branch := "main", parentCommit := "HEAD" })] }

/-- The operation sequence that drives the store to zero active changelists:
create a custom changelist, activate it, delete it. -/
def zeroActiveOps : List StoreOp :=
  [StoreOp.create "c1" "Custom" none, StoreOp.setActive "c1", StoreOp.delete "c1"]

/-- The store invariant maintained by every operation: keys are distinct and
at most one changelist is flagged active. -/
def StoreInv (st : ChangelistStore) : Prop :=
  (st.changelists.map Prod.fst).Nodup ∧ st.activeCount ≤ 1

/-- The stronger invariant maintained by `setActiveChangelist` alone: keys
are distinct and exactly one changelist is flagged active. -/
def StoreInvOne (st : ChangelistStore) : Prop :=
  (st.changelists.map Prod.fst).Nodup ∧ st.activeCount = 1

/-- Default changelist of the concrete store used to exercise
`deleteChangelist`: it already holds a file at `/w/a.txt`. -/
def c8DefaultChangelist : Changelist :=
  { id := "default"
    name := "Default Changelist"
    files := [{ path := "/w/a.txt", relativePath := "a.txt",
                status := FileChangeStatus.Modified }]
    isDefault := true
    isActive := true }

/-- Custom changelist of the concrete store used to exercise
`deleteChangelist`: two files, one sharing its path with the default
changelist. -/
def c8CustomChangelist : Changelist :=
  { id := "c1"
    name := "Feature"
    files := [{ path := "/w/a.txt", relativePath := "a.txt",
                status := FileChangeStatus.Modified },
              { path := "/w/b.txt", relativePath := "b.txt",
                status := FileChangeStatus.Added }] }

/-- Concrete two-changelist store used to exercise `deleteChangelist`. -/
def c8Store : ChangelistStore :=
  { changelists := [("default", c8DefaultChangelist), ("c1", c8CustomChangelist)]
    activeChangelistId := "default" }

end GitPilot

namespace GitPilot

section Theorems

/-- C10: moving files from a changelist to itself is accepted and returns the
store unchanged, before any existence check runs, for any id whatsoever. -/
theorem moveFiles_same_id_noop (st : ChangelistStore) (filePaths : List String)
    (id : String) : st.moveFiles filePaths id id = Except.ok st := by
  simp [ChangelistStore.moveFiles]

/-- C3: a path listed in both the `conflicted` and the `modified` buckets is
classified `Modified` by `detectStatusWithGitProvider`, because the fallback
probes `modified` before it ever reaches `conflicted`; the claimed precedence
would require `Conflicted`. -/
theorem conflicted_and_modified_is_modified :
    detectStatusWithGitProvider
      { untracked := [], modified := ["src/app.ts"], staged := [], deleted := [],
        added := [], conflicted := ["src/app.ts"] } "src/app.ts" = FileStatus.Modified ∧
    FileStatus.Modified ≠ FileStatus.Conflicted := by
  exact ⟨by decide, by decide⟩

/-- C5 counterexample: on the spec's worked example the parser emits the
ranges deleted 0-0 and added 1-2, so the claimed deleted 1-1 and added 2-3
are each off by one. -/
theorem parseDiff_example_refutes_claim :
    parseDiff exampleDiffInput ≠
      [{ type := ChangeType.deleted, startLine := 1, endLine := 1 },
       { type := ChangeType.added, startLine := 2, endLine := 3 }] := by
  decide

/-- C5 (amended): on the spec's worked example the parser yields exactly
deleted 0-0 followed by added 1-2 (0-based lines, counter starting at
`c - 1 = 0`; the context line advances it to 1, the `-` line anchors one line
above at 0, and the two `+` lines cover lines 1 and 2). -/
theorem parseDiff_example_value :
    parseDiff exampleDiffInput =
      [{ type := ChangeType.deleted, startLine := 0, endLine := 0 },
       { type := ChangeType.added, startLine := 1, endLine := 2 }] := by
  decide

/-- C7: on the spec's conflict example exactly one conflict is reported, at
line 2; and for any shelved file probed with its own captured original
content, `canRestore` holds and `detectConflicts` is empty. -/
theorem detectConflicts_example_and_identity :
    (ShelvedFile.detectConflicts
      { path := "p", relativePath := "p", originalContent := "a\nb\nc",
        shelvedContent := "a\nX\nc", status := FileChangeStatus.Modified }
      "a\nY\nc" = ["Line 2: conflicting changes"]) ∧
    ∀ sf : ShelvedFile, sf.canRestore sf.originalContent = true ∧
      sf.detectConflicts sf.originalContent = [] := by
  refine ⟨by decide, fun sf => ?_⟩
  have h : sf.canRestore sf.originalContent = true := by
    simp [ShelvedFile.canRestore]
  exact ⟨h, by simp [ShelvedFile.detectConflicts, h]⟩

/-- C1: evaluation at the failing input.  The current disk content `a\nc`
fails `canRestore` against the captured original `a\nb`, the preview reports
no conflicts (line 2 changed only on disk, not in the shelved copy), and
`unshelve` without `forceMerge` succeeds anyway, overwriting the file with
the shelved content `A\nb`: the conflict error thrown inside `restoreFile`
is swallowed by its own missing-file catch block, which writes
unconditionally. -/
theorem unshelve_overwrites_despite_canRestore_false :
    conflictShelvedFile.canRestore "a\nc" = false ∧
    ShelveStore.previewUnshelve conflictFs conflictShelveStore "s1" =
      Except.ok { hasConflicts := false, conflictingFiles := [],
                  canAutoMerge := true, details := [] } ∧
    ∃ fs2 : Fs, ShelveStore.unshelve conflictFs conflictShelveStore "s1" {} =
        Except.ok ({ shelves := [] }, fs2) ∧ fs2 "/w/f.txt" = some "A\nb" := by
  refine ⟨by decide, by rfl, writeFile conflictFs "/w/f.txt" "A\nb", by rfl, by rfl⟩

/-- C4: when the file is readable and unchanged between the two reads of
`createShelvedFile`, the produced shelved file has its baseline equal to its
shelved content (the placeholder `getOriginalContent` re-reads the same disk
content), so conflict detection against that same content is empty. -/
theorem createShelvedFile_baseline_equals_shelved (fs : Fs) (file : FileChange)
    (c : String) (h : fs file.path = some c) :
    ∃ sf : ShelvedFile, ShelveStore.createShelvedFile fs file = some sf ∧
      sf.originalContent = sf.shelvedContent ∧ sf.detectConflicts c = [] := by
  refine ⟨{ path := file.path, relativePath := file.relativePath,
            originalContent := c, shelvedContent := c, status := file.status,
            encoding := "utf8" }, ?_, rfl, ?_⟩
  · simp [ShelveStore.createShelvedFile, ShelveStore.getOriginalContent, h]
  · simp [ShelvedFile.detectConflicts, ShelvedFile.canRestore]

/-- C4 witness: the theorem applied at a one-file filesystem. -/
theorem createShelvedFile_baseline_equals_shelved_witness :
    ((fun p => if p = "/w/a.txt" then some "hello" else none) : Fs) "/w/a.txt"
        = some "hello" ∧
    ∃ sf : ShelvedFile,
      ShelveStore.createShelvedFile
          (fun p => if p = "/w/a.txt" then some "hello" else none)
          { path := "/w/a.txt", relativePath := "a.txt",
            status := FileChangeStatus.Modified } = some sf ∧
      sf.originalContent = sf.shelvedContent ∧ sf.detectConflicts "hello" = [] :=
  ⟨by rfl,
   createShelvedFile_baseline_equals_shelved
     (fun p => if p = "/w/a.txt" then some "hello" else none)
     { path := "/w/a.txt", relativePath := "a.txt",
       status := FileChangeStatus.Modified } "hello" (by rfl)⟩

/-- Adding a file whose path is already present returns the changelist
unchanged. -/
theorem addFile_of_path_mem (cl : Changelist) (f : FileChange)
    (h : f.path ∈ cl.files.map FileChange.path) : cl.addFile f = cl := by
  unfold Changelist.addFile
  rw [if_pos]
  simp only [List.any_eq_true, decide_eq_true_eq]
  rcases List.mem_map.1 h with ⟨g, hg, hpath⟩
  exact ⟨g, hg, hpath⟩

/-- Adding a file whose path is absent appends it. -/
theorem addFile_of_path_not_mem (cl : Changelist) (f : FileChange)
    (h : f.path ∉ cl.files.map FileChange.path) :
    cl.addFile f = { cl with files := cl.files ++ [f] } := by
  unfold Changelist.addFile
  rw [if_neg]
  simp only [List.any_eq_true, decide_eq_true_eq, not_exists]
  intro g hg
  exact h (List.mem_map.2 ⟨g, hg.1, hg.2⟩)

/-- C9: adding a file with a fresh path puts it in the list exactly once,
re-adding it is a no-op on the length, and `addFile` preserves the
uniqueness of file paths. -/
theorem addFile_unique_and_idempotent (cl : Changelist) (f : FileChange) :
    ((∀ g ∈ cl.files, g.path ≠ f.path) →
      (cl.addFile f).files.count f = 1 ∧
      ((cl.addFile f).addFile f).files.length = (cl.addFile f).files.length) ∧
    ((cl.files.map FileChange.path).Nodup →
      ((cl.addFile f).files.map FileChange.path).Nodup) := by
  constructor
  · intro h
    have hnot : f.path ∉ cl.files.map FileChange.path := by
      intro hmem
      rcases List.mem_map.1 hmem with ⟨g, hg, hpath⟩
      exact h g hg hpath
    have h1 : cl.addFile f = { cl with files := cl.files ++ [f] } :=
      addFile_of_path_not_mem cl f hnot
    have hmem2 : f.path ∈ ({ cl with files := cl.files ++ [f] } : Changelist).files.map
        FileChange.path := by
      simp
    constructor
    · rw [h1]
      have hzero : cl.files.count f = 0 := by
        rw [List.count_eq_zero]
        intro hf
        exact h f hf rfl
      simp [List.count_append, hzero]
    · rw [h1, addFile_of_path_mem _ f hmem2]
  · intro hnd
    by_cases hmem : f.path ∈ cl.files.map FileChange.path
    · rw [addFile_of_path_mem cl f hmem]
      exact hnd
    · rw [addFile_of_path_not_mem cl f hmem]
      simp only [List.map_append, List.map_cons, List.map_nil]
      rw [List.nodup_append]
      exact ⟨hnd, List.nodup_singleton _, by simpa using hmem⟩

/-- C9 witness: the theorem applied to the default changelist and a concrete
file. -/
theorem addFile_unique_and_idempotent_witness :
    ((∀ g ∈ Changelist.createDefault.files, g.path ≠ "/w/a.txt") →
      (Changelist.createDefault.addFile
        { path := "/w/a.txt", relativePath := "a.txt",
          status := FileChangeStatus.Added }).files.count
        { path := "/w/a.txt", relativePath := "a.txt",
          status := FileChangeStatus.Added } = 1 ∧
      ((Changelist.createDefault.addFile
        { path := "/w/a.txt", relativePath := "a.txt",
          status := FileChangeStatus.Added }).addFile
        { path := "/w/a.txt", relativePath := "a.txt",
          status := FileChangeStatus.Added }).files.length =
      (Changelist.createDefault.addFile
        { path := "/w/a.txt", relativePath := "a.txt",
          status := FileChangeStatus.Added }).files.length) ∧
    ((Changelist.createDefault.files.map FileChange.path).Nodup →
      ((Changelist.createDefault.addFile
        { path := "/w/a.txt", relativePath := "a.txt",
          status := FileChangeStatus.Added }).files.map FileChange.path).Nodup) :=
  addFile_unique_and_idempotent Changelist.createDefault
    { path := "/w/a.txt", relativePath := "a.txt", status := FileChangeStatus.Added }

/-- Replacing the value at a key leaves the key list unchanged. -/
theorem map_fst_replaceEntry {α : Type} (m : List (String × α)) (k : String) (v : α) :
    (m.map (fun p => if p.1 = k then (k, v) else p)).map Prod.fst = m.map Prod.fst := by
  induction m with
  | nil => rfl
  | cons a t ih =>
    by_cases ha : a.1 = k
    · simp [ha, ih]
    · simp [ha, ih]

/-- `mapSet` preserves distinctness of keys. -/
theorem nodup_keys_mapSet {α : Type} (m : List (String × α)) (k : String) (v : α)
    (h : (m.map Prod.fst).Nodup) : ((mapSet m k v).map Prod.fst).Nodup := by
  unfold mapSet
  by_cases hany : m.any (fun p => p.1 = k) = true
  · rw [if_pos hany, map_fst_replaceEntry]
    exact h
  · rw [if_neg hany]
    have hk : k ∉ m.map Prod.fst := by
      intro hmem
      rcases List.mem_map.1 hmem with ⟨p, hp, hfst⟩
      exact hany (List.any_eq_true.2 ⟨p, hp, by simp [hfst]⟩)
    simp only [List.map_append, List.map_cons, List.map_nil]
    rw [List.nodup_append]
    exact ⟨h, List.nodup_singleton _, by simpa using hk⟩

/-- `mapDelete` preserves distinctness of keys. -/
theorem nodup_keys_mapDelete {α : Type} (m : List (String × α)) (k : String)
    (h : (m.map Prod.fst).Nodup) : ((mapDelete m k).map Prod.fst).Nodup := by
  exact ((List.filter_sublist m).map Prod.fst).nodup h

/-- A successful `mapGet` means the key occurs in the list. -/
theorem any_key_of_mapGet_some {α : Type} (m : List (String × α)) (k : String)
    (w : α) (h : mapGet m k = some w) : m.any (fun p => p.1 = k) = true := by
  induction m with
  | nil => simp [mapGet] at h
  | cons a t ih =>
    by_cases ha : a.1 = k
    · simp [ha]
    · unfold mapGet at h
      rw [List.find?_cons_of_neg _ (by simpa using ha)] at h
      simp only [List.any_cons, Bool.or_eq_true]
      exact Or.inr (ih h)

/-- With distinct keys, every entry carrying the looked-up key holds the
value `mapGet` returns. -/
theorem mapGet_unique {α : Type} (m : List (String × α)) (k : String) (w : α)
    (hnd : (m.map Prod.fst).Nodup) (h : mapGet m k = some w) :
    ∀ p ∈ m, p.1 = k → p.2 = w := by
  induction m with
  | nil => intro p hp; simp at hp
  | cons a t ih =>
    rw [List.map_cons, List.nodup_cons] at hnd
    intro p hp hpk
    rcases List.mem_cons.1 hp with rfl | hpt
    · unfold mapGet at h
      rw [List.find?_cons_of_pos _ (by simpa using hpk)] at h
      simpa using h
    · by_cases ha : a.1 = k
      · exact absurd (List.mem_map.2 ⟨p, hpt, hpk.trans ha.symm⟩) hnd.1
      · unfold mapGet at h
        rw [List.find?_cons_of_neg _ (by simpa using ha)] at h
        exact ih hnd.2 h p hpt hpk

/-- Looking the key up after an in-place replacement yields the new value. -/
theorem mapGet_replaceEntry {α : Type} (m : List (String × α)) (k : String)
    (v : α) (hany : m.any (fun p => p.1 = k) = true) :
    mapGet (m.map (fun p => if p.1 = k then (k, v) else p)) k = some v := by
  induction m with
  | nil => simp at hany
  | cons a t ih =>
    unfold mapGet
    rw [List.map_cons]
    by_cases ha : a.1 = k
    · rw [if_pos ha, List.find?_cons_of_pos _ (by simp)]
      rfl
    · rw [if_neg ha, List.find?_cons_of_neg _ (by simpa using ha)]
      simp only [List.any_cons, Bool.or_eq_true] at hany
      rcases hany with h1 | h2
      · exact absurd (by simpa using h1) ha
      · exact ih h2

/-- Looking up the written key after `mapSet` yields the new value, provided
the key was present before. -/
theorem mapGet_mapSet_self {α : Type} (m : List (String × α)) (k : String)
    (v w : α) (h : mapGet m k = some w) : mapGet (mapSet m k v) k = some v := by
  have hany := any_key_of_mapGet_some m k w h
  unfold mapSet
  rw [if_pos hany]
  exact mapGet_replaceEntry m k v hany

/-- Deleting one key does not change lookups of another. -/
theorem mapGet_mapDelete_ne {α : Type} (m : List (String × α)) (k j : String)
    (hne : k ≠ j) : mapGet (mapDelete m j) k = mapGet m k := by
  induction m with
  | nil => rfl
  | cons a t ih =>
    unfold mapDelete mapGet at ih ⊢
    rw [List.filter_cons]
    by_cases haj : a.1 = j
    · have hak : ¬ a.1 = k := fun hc => hne ((hc.symm.trans haj).symm ▸ rfl)
      rw [if_neg (by simp [haj]), List.find?_cons_of_neg _ (by simpa using hak)]
      exact ih
    · rw [if_pos (by simp [haj])]
      by_cases hak : a.1 = k
      · rw [List.find?_cons_of_pos _ (by simpa using hak),
          List.find?_cons_of_pos _ (by simpa using hak)]
      · rw [List.find?_cons_of_neg _ (by simpa using hak),
          List.find?_cons_of_neg _ (by simpa using hak)]
        exact ih

/-- Writing a key that was absent appends it, so other lookups are kept. -/
theorem mapGet_append_single_ne {α : Type} (m : List (String × α)) (k : String)
    (v : α) (j : String) (hne : j ≠ k) : mapGet (m ++ [(k, v)]) j = mapGet m j := by
  induction m with
  | nil =>
    unfold mapGet
    rw [List.nil_append, List.find?_cons_of_neg _ (by simpa using fun hc => hne hc.symm)]
  | cons a t ih =>
    unfold mapGet at ih ⊢
    rw [List.cons_append]
    by_cases ha : a.1 = j
    · rw [List.find?_cons_of_pos _ (by simpa using ha),
        List.find?_cons_of_pos _ (by simpa using ha)]
    · rw [List.find?_cons_of_neg _ (by simpa using ha),
        List.find?_cons_of_neg _ (by simpa using ha)]
      exact ih

/-- Replacing the value at one key does not change lookups of another. -/
theorem mapGet_replaceEntry_ne {α : Type} (m : List (String × α)) (k : String)
    (v : α) (j : String) (hne : j ≠ k) :
    mapGet (m.map (fun p => if p.1 = k then (k, v) else p)) j = mapGet m j := by
  induction m with
  | nil => rfl
  | cons a t ih =>
    unfold mapGet at ih ⊢
    rw [List.map_cons]
    by_cases ha : a.1 = k
    · have h1 : ¬ ((k, v) : String × α).1 = j := fun hc => hne hc.symm
      have h2 : ¬ a.1 = j := fun hc => hne (hc.symm.trans ha)
      rw [if_pos ha, List.find?_cons_of_neg _ (by simpa using h1),
        List.find?_cons_of_neg _ (by simpa using h2)]
      exact ih
    · rw [if_neg ha]
      by_cases haj : a.1 = j
      · rw [List.find?_cons_of_pos _ (by simpa using haj),
          List.find?_cons_of_pos _ (by simpa using haj)]
      · rw [List.find?_cons_of_neg _ (by simpa using haj),
          List.find?_cons_of_neg _ (by simpa using haj)]
        exact ih

/-- `mapSet` at one key does not change lookups of another. -/
theorem mapGet_mapSet_ne {α : Type} (m : List (String × α)) (k : String) (v : α)
    (j : String) (hne : j ≠ k) : mapGet (mapSet m k v) j = mapGet m j := by
  unfold mapSet
  by_cases hany : m.any (fun p => p.1 = k) = true
  · rw [if_pos hany]
    exact mapGet_replaceEntry_ne m k v j hne
  · rw [if_neg hany]
    exact mapGet_append_single_ne m k v j hne

/-- `setActive` always lands on the requested flag. -/
theorem isActive_setActive (cl : Changelist) (b : Bool) :
    (cl.setActive b).isActive = b := by
  unfold Changelist.setActive
  by_cases h : cl.isActive = b
  · rw [if_pos h]; exact h
  · rw [if_neg h]

/-- `addFile` never touches the `isActive` flag. -/
theorem isActive_addFile (cl : Changelist) (f : FileChange) :
    (cl.addFile f).isActive = cl.isActive := by
  unfold Changelist.addFile
  split <;> rfl

/-- `removeFile` never touches the `isActive` flag. -/
theorem isActive_removeFile (cl : Changelist) (p : String) :
    (cl.removeFile p).isActive = cl.isActive := by
  simp only [Changelist.removeFile]
  split <;> rfl

/-- `rename` never touches the `isActive` flag. -/
theorem isActive_rename (cl : Changelist) (n : String) :
    (cl.rename n).isActive = cl.isActive := by
  unfold Changelist.rename
  split <;> rfl

/-- Folding `addFile` over a file list never touches the `isActive` flag. -/
theorem isActive_foldl_addFile (fs : List FileChange) (cl : Changelist) :
    (fs.foldl Changelist.addFile cl).isActive = cl.isActive := by
  induction fs generalizing cl with
  | nil => rfl
  | cons f t ih => rw [List.foldl_cons, ih, isActive_addFile]

/-- Folding `removeFile` over a file list never touches the `isActive` flag. -/
theorem isActive_foldl_removeFile (fs : List FileChange) (cl : Changelist) :
    (fs.foldl (fun cl2 f => cl2.removeFile f.path) cl).isActive = cl.isActive := by
  induction fs generalizing cl with
  | nil => rfl
  | cons f t ih => rw [List.foldl_cons, ih, isActive_removeFile]

/-- `addFile` never touches the `id`. -/
theorem id_addFile (cl : Changelist) (f : FileChange) :
    (cl.addFile f).id = cl.id := by
  unfold Changelist.addFile
  split <;> rfl

/-- Folding `addFile` over a file list never touches the `id`. -/
theorem id_foldl_addFile (fs : List FileChange) (cl : Changelist) :
    (fs.foldl Changelist.addFile cl).id = cl.id := by
  induction fs generalizing cl with
  | nil => rfl
  | cons f t ih => rw [List.foldl_cons, ih, id_addFile]

/-- Replacing a key's value by one with the same `isActive` flag keeps the
number of active entries. -/
theorem countP_active_replaceEntry_eq (m : List (String × Changelist))
    (k : String) (v : Changelist)
    (hv : ∀ p ∈ m, p.1 = k → v.isActive = p.2.isActive) :
    (m.map (fun p => if p.1 = k then (k, v) else p)).countP (fun p => p.2.isActive)
      = m.countP (fun p => p.2.isActive) := by
  induction m with
  | nil => rfl
  | cons a t ih =>
    rw [List.map_cons, List.countP_cons, List.countP_cons,
      ih (fun p hp hpk => hv p (List.mem_cons_of_mem a hp) hpk)]
    by_cases ha : a.1 = k
    · rw [if_pos ha]
      rw [hv a (List.mem_cons_self a t) ha]
    · rw [if_neg ha]

/-- Replacing a key's value by an inactive one cannot increase the number of
active entries. -/
theorem countP_active_replaceEntry_le (m : List (String × Changelist))
    (k : String) (v : Changelist) (hv : v.isActive = false) :
    (m.map (fun p => if p.1 = k then (k, v) else p)).countP (fun p => p.2.isActive)
      ≤ m.countP (fun p => p.2.isActive) := by
  induction m with
  | nil => exact Nat.le_refl 0
  | cons a t ih =>
    rw [List.map_cons, List.countP_cons, List.countP_cons]
    by_cases ha : a.1 = k
    · rw [if_pos ha]
      exact Nat.add_le_add ih (by simp [hv])
    · rw [if_neg ha]
      exact Nat.add_le_add ih (Nat.le_refl _)

/-- `mapSet` with an equally-active value keeps the number of active
entries. -/
theorem countP_active_mapSet_eq (m : List (String × Changelist)) (k : String)
    (v w : Changelist) (hnd : (m.map Prod.fst).Nodup)
    (hget : mapGet m k = some w) (hv : v.isActive = w.isActive) :
    (mapSet m k v).countP (fun p => p.2.isActive)
      = m.countP (fun p => p.2.isActive) := by
  unfold mapSet
  rw [if_pos (any_key_of_mapGet_some m k w hget)]
  exact countP_active_replaceEntry_eq m k v
    (fun p hp hpk => by rw [hv, mapGet_unique m k w hnd hget p hp hpk])

/-- `mapSet` with an inactive value cannot increase the number of active
entries. -/
theorem countP_active_mapSet_le (m : List (String × Changelist)) (k : String)
    (v : Changelist) (hv : v.isActive = false) :
    (mapSet m k v).countP (fun p => p.2.isActive)
      ≤ m.countP (fun p => p.2.isActive) := by
  unfold mapSet
  by_cases hany : m.any (fun p => p.1 = k) = true
  · rw [if_pos hany]
    exact countP_active_replaceEntry_le m k v hv
  · rw [if_neg hany]
    rw [List.countP_append]
    simp [hv]

/-- Deleting a key cannot increase the number of active entries. -/
theorem countP_active_mapDelete_le (m : List (String × Changelist)) (k : String) :
    (mapDelete m k).countP (fun p => p.2.isActive)
      ≤ m.countP (fun p => p.2.isActive) :=
  (List.filter_sublist m).countP_le _

/-- `activeCount` as a count over the store entries. -/
theorem activeCount_eq_countP (st : ChangelistStore) :
    st.activeCount = st.changelists.countP (fun p => p.2.isActive) := by
  unfold ChangelistStore.activeCount ChangelistStore.getAllChangelists
  rw [List.countP_map]
  rfl

/-- After the `setActiveChangelist` rewrite no entry outside the target key
is active. -/
theorem countP_active_setActive_map_zero (t : List (String × Changelist))
    (id : String) (hid : id ∉ t.map Prod.fst) :
    (t.map (fun p => (p.1, p.2.setActive (decide (p.1 = id))))).countP
      (fun p => p.2.isActive) = 0 := by
  rw [List.countP_eq_zero]
  intro x hx
  rcases List.mem_map.1 hx with ⟨p, hp, rfl⟩
  simp only [isActive_setActive, decide_eq_true_eq]
  intro hpk
  exact hid (List.mem_map.2 ⟨p, hp, hpk⟩)

/-- The `setActiveChangelist` rewrite leaves exactly one active entry when
the target key is present and keys are distinct. -/
theorem countP_active_setActive_map (m : List (String × Changelist))
    (id : String) (hnd : (m.map Prod.fst).Nodup)
    (hany : m.any (fun p => p.1 = id) = true) :
    (m.map (fun p => (p.1, p.2.setActive (decide (p.1 = id))))).countP
      (fun p => p.2.isActive) = 1 := by
  induction m with
  | nil => simp at hany
  | cons a t ih =>
    rw [List.map_cons, List.nodup_cons] at hnd
    rw [List.map_cons, List.countP_cons]
    by_cases ha : a.1 = id
    · rw [countP_active_setActive_map_zero t id (ha ▸ hnd.1)]
      simp [isActive_setActive, ha]
    · have hany2 : t.any (fun p => p.1 = id) = true := by
        simp only [List.any_cons, Bool.or_eq_true] at hany
        rcases hany with h1 | h2
        · exact absurd (by simpa using h1) ha
        · exact h2
      rw [ih hnd.2 hany2]
      simp [isActive_setActive, ha]

/-- The `setActiveChangelist` rewrite keeps the key list unchanged. -/
theorem map_fst_setActive_map (m : List (String × Changelist)) (id : String) :
    (m.map (fun p => (p.1, p.2.setActive (decide (p.1 = id))))).map Prod.fst
      = m.map Prod.fst := by
  rw [List.map_map]
  rfl

/-- A successful `createChangelist` preserves the store invariant: the new
changelist is registered inactive. -/
theorem storeInv_createChangelist (st : ChangelistStore) (freshId name : String)
    (d : Option String) (st2 : ChangelistStore) (h : StoreInv st)
    (hok : st.createChangelist freshId name d = Except.ok st2) : StoreInv st2 := by
  unfold ChangelistStore.createChangelist at hok
  by_cases h1 : jsTrim name = ""
  · rw [if_pos h1] at hok
    cases hok
  · rw [if_neg h1] at hok
    by_cases h2 : st.changelists.any (fun p => p.2.name = jsTrim name) = true
    · rw [if_pos h2] at hok
      cases hok
    · rw [if_neg h2] at hok
      cases hok
      refine ⟨nodup_keys_mapSet _ _ _ h.1, ?_⟩
      rw [activeCount_eq_countP]
      exact le_trans (countP_active_mapSet_le _ _ _ rfl)
        (activeCount_eq_countP st ▸ h.2)

/-- A successful `deleteChangelist` preserves the store invariant: files move
into the default changelist without touching any `isActive` flag, then one
entry is removed. -/
theorem storeInv_deleteChangelist (st : ChangelistStore) (id : String)
    (st2 : ChangelistStore) (h : StoreInv st)
    (hok : st.deleteChangelist id = Except.ok st2) : StoreInv st2 := by
  unfold ChangelistStore.deleteChangelist at hok
  by_cases h1 : id = "default"
  · rw [if_pos h1] at hok
    cases hok
  · rw [if_neg h1] at hok
    cases hget : mapGet st.changelists id with
    | none => rw [hget] at hok; cases hok
    | some changelist =>
      rw [hget] at hok
      dsimp only at hok
      by_cases h2 : changelist.hasFiles = true
      · rw [if_pos h2] at hok
        cases hdef : mapGet st.changelists "default" with
        | none => rw [hdef] at hok; cases hok
        | some dflt =>
          rw [hdef] at hok
          dsimp only at hok
          cases hok
          refine ⟨nodup_keys_mapDelete _ _ (nodup_keys_mapSet _ _ _ h.1), ?_⟩
          rw [activeCount_eq_countP]
          refine le_trans (countP_active_mapDelete_le _ _) ?_
          rw [countP_active_mapSet_eq _ _ _ dflt h.1 hdef (isActive_foldl_addFile _ _)]
          exact activeCount_eq_countP st ▸ h.2
      · rw [if_neg h2] at hok
        cases hok
        refine ⟨nodup_keys_mapDelete _ _ h.1, ?_⟩
        rw [activeCount_eq_countP]
        exact le_trans (countP_active_mapDelete_le _ _)
          (activeCount_eq_countP st ▸ h.2)

/-- A successful `renameChangelist` preserves the store invariant. -/
theorem storeInv_renameChangelist (st : ChangelistStore) (id newName : String)
    (st2 : ChangelistStore) (h : StoreInv st)
    (hok : st.renameChangelist id newName = Except.ok st2) : StoreInv st2 := by
  unfold ChangelistStore.renameChangelist at hok
  by_cases h1 : jsTrim newName = ""
  · rw [if_pos h1] at hok
    cases hok
  · rw [if_neg h1] at hok
    cases hget : mapGet st.changelists id with
    | none => rw [hget] at hok; cases hok
    | some changelist =>
      rw [hget] at hok
      dsimp only at hok
      by_cases h2 : st.changelists.any (fun p => p.1 ≠ id ∧ p.2.name = jsTrim newName) = true
      · rw [if_pos h2] at hok
        cases hok
      · rw [if_neg h2] at hok
        cases hok
        refine ⟨nodup_keys_mapSet _ _ _ h.1, ?_⟩
        rw [activeCount_eq_countP,
          countP_active_mapSet_eq _ _ _ changelist h.1 hget (isActive_rename _ _)]
        exact activeCount_eq_countP st ▸ h.2

/-- A successful `moveFiles` preserves the store invariant. -/
theorem storeInv_moveFiles (st : ChangelistStore) (filePaths : List String)
    (fromId toId : String) (st2 : ChangelistStore) (h : StoreInv st)
    (hok : st.moveFiles filePaths fromId toId = Except.ok st2) : StoreInv st2 := by
  unfold ChangelistStore.moveFiles at hok
  by_cases h1 : fromId = toId
  · rw [if_pos h1] at hok
    cases hok
    exact h
  · rw [if_neg h1] at hok
    cases hfrom : mapGet st.changelists fromId with
    | none => rw [hfrom] at hok; cases hok
    | some fromCl =>
      rw [hfrom] at hok
      dsimp only at hok
      cases hto : mapGet st.changelists toId with
      | none => rw [hto] at hok; cases hok
      | some toCl =>
        rw [hto] at hok
        dsimp only at hok
        by_cases h2 : (fromCl.files.filter (fun f => filePaths.contains f.path)).length = 0
        · rw [if_pos h2] at hok
          cases hok
          exact h
        · rw [if_neg h2] at hok
          cases hok
          have hne : toId ≠ fromId := fun hc => h1 hc.symm
          have hto2 : mapGet (mapSet st.changelists fromId
              ((fromCl.files.filter (fun f => filePaths.contains f.path)).foldl
                (fun cl2 f => cl2.removeFile f.path) fromCl)) toId = some toCl := by
            rw [mapGet_mapSet_ne _ _ _ _ hne]
            exact hto
          refine ⟨nodup_keys_mapSet _ _ _ (nodup_keys_mapSet _ _ _ h.1), ?_⟩
          rw [activeCount_eq_countP,
            countP_active_mapSet_eq _ _ _ toCl (nodup_keys_mapSet _ _ _ h.1) hto2
              (isActive_foldl_addFile _ _),
            countP_active_mapSet_eq _ _ _ fromCl h.1 hfrom
              (isActive_foldl_removeFile _ _)]
          exact activeCount_eq_countP st ▸ h.2

/-- A successful `setActiveChangelist` leaves the keys unchanged and exactly
one entry active — it rebuilds every flag from scratch. -/
theorem storeInv_setActiveChangelist (st : ChangelistStore) (id : String)
    (st2 : ChangelistStore) (hnd : (st.changelists.map Prod.fst).Nodup)
    (hok : st.setActiveChangelist id = Except.ok st2) :
    (st2.changelists.map Prod.fst).Nodup ∧ st2.activeCount = 1 := by
  unfold ChangelistStore.setActiveChangelist at hok
  by_cases h1 : st.changelists.any (fun p => p.1 = id) = true
  · rw [if_pos h1] at hok
    cases hok
    refine ⟨?_, ?_⟩
    · rw [map_fst_setActive_map]
      exact hnd
    · rw [activeCount_eq_countP]
      exact countP_active_setActive_map _ _ hnd h1
  · rw [if_neg h1] at hok
    cases hok

/-- A successful `addFileToChangelist` preserves the store invariant. -/
theorem storeInv_addFileToChangelist (st : ChangelistStore) (file : FileChange)
    (cid : String) (st2 : ChangelistStore) (h : StoreInv st)
    (hok : st.addFileToChangelist file cid = Except.ok st2) : StoreInv st2 := by
  unfold ChangelistStore.addFileToChangelist at hok
  cases hget : mapGet st.changelists cid with
  | none => rw [hget] at hok; cases hok
  | some changelist =>
    rw [hget] at hok
    dsimp only at hok
    cases hok
    refine ⟨nodup_keys_mapSet _ _ _ h.1, ?_⟩
    rw [activeCount_eq_countP,
      countP_active_mapSet_eq _ _ _ changelist h.1 hget (isActive_addFile _ _)]
    exact activeCount_eq_countP st ▸ h.2

/-- A successful `removeFileFromChangelist` preserves the store invariant. -/
theorem storeInv_removeFileFromChangelist (st : ChangelistStore)
    (file : FileChange) (cid : String) (st2 : ChangelistStore) (h : StoreInv st)
    (hok : st.removeFileFromChangelist file cid = Except.ok st2) : StoreInv st2 := by
  unfold ChangelistStore.removeFileFromChangelist at hok
  cases hget : mapGet st.changelists cid with
  | none => rw [hget] at hok; cases hok
  | some changelist =>
    rw [hget] at hok
    dsimp only at hok
    cases hok
    refine ⟨nodup_keys_mapSet _ _ _ h.1, ?_⟩
    rw [activeCount_eq_countP,
      countP_active_mapSet_eq _ _ _ changelist h.1 hget (isActive_removeFile _ _)]
    exact activeCount_eq_countP st ▸ h.2

/-- Every store operation preserves the invariant (failed operations leave
the store untouched). -/
theorem storeInv_applyOp (st : ChangelistStore) (op : StoreOp) (h : StoreInv st) :
    StoreInv (applyOp st op) := by
  cases op with
  | create freshId name d =>
    unfold applyOp
    dsimp only
    cases hok : st.createChangelist freshId name d with
    | ok st2 =>
      exact storeInv_createChangelist st freshId name d st2 h hok
    | error e => exact h
  | delete id =>
    unfold applyOp
    dsimp only
    cases hok : st.deleteChangelist id with
    | ok st2 =>
      exact storeInv_deleteChangelist st id st2 h hok
    | error e => exact h
  | rename id newName =>
    unfold applyOp
    dsimp only
    cases hok : st.renameChangelist id newName with
    | ok st2 =>
      exact storeInv_renameChangelist st id newName st2 h hok
    | error e => exact h
  | move filePaths fromId toId =>
    unfold applyOp
    dsimp only
    cases hok : st.moveFiles filePaths fromId toId with
    | ok st2 =>
      exact storeInv_moveFiles st filePaths fromId toId st2 h hok
    | error e => exact h
  | setActive id =>
    unfold applyOp
    dsimp only
    cases hok : st.setActiveChangelist id with
    | ok st2 =>
      have h2 := storeInv_setActiveChangelist st id st2 h.1 hok
      exact ⟨h2.1, Nat.le_of_eq h2.2⟩
    | error e => exact h
  | addFile file cid =>
    unfold applyOp
    dsimp only
    cases hok : st.addFileToChangelist file cid with
    | ok st2 =>
      exact storeInv_addFileToChangelist st file cid st2 h hok
    | error e => exact h
  | removeFile file cid =>
    unfold applyOp
    dsimp only
    cases hok : st.removeFileFromChangelist file cid with
    | ok st2 =>
      exact storeInv_removeFileFromChangelist st file cid st2 h hok
    | error e => exact h

/-- A `setActiveChangelist` operation preserves the exactly-one-active
invariant. -/
theorem storeInvOne_applyOp_setActive (st : ChangelistStore) (id : String)
    (h : StoreInvOne st) : StoreInvOne (applyOp st (StoreOp.setActive id)) := by
  unfold applyOp
  dsimp only
  cases hok : st.setActiveChangelist id with
  | ok st2 =>
    exact storeInv_setActiveChangelist st id st2 h.1 hok
  | error e => exact h

/-- The constructor state satisfies the store invariant. -/
theorem storeInv_initial : StoreInv ChangelistStore.initialStore := by
  constructor
  · decide
  · decide

/-- The constructor state satisfies the exactly-one-active invariant. -/
theorem storeInvOne_initial : StoreInvOne ChangelistStore.initialStore := by
  constructor
  · decide
  · decide

/-- The invariant holds after any operation sequence. -/
theorem storeInv_applyOps (ops : List StoreOp) (st : ChangelistStore)
    (h : StoreInv st) : StoreInv (applyOps st ops) := by
  induction ops generalizing st with
  | nil => exact h
  | cons op t ih => exact ih _ (storeInv_applyOp st op h)

/-- The exactly-one-active invariant holds after any sequence of
`setActiveChangelist` operations. -/
theorem storeInvOne_applyOps (ops : List StoreOp) (st : ChangelistStore)
    (h : StoreInvOne st)
    (hops : ∀ op ∈ ops, ∃ id, op = StoreOp.setActive id) :
    StoreInvOne (applyOps st ops) := by
  induction ops generalizing st with
  | nil => exact h
  | cons op t ih =>
    rcases hops op (List.mem_cons_self op t) with ⟨id, rfl⟩
    exact ih _ (storeInvOne_applyOp_setActive st id h)
      (fun op2 hop2 => hops op2 (List.mem_cons_of_mem _ hop2))

/-- C2 (amended): starting from the initial store, after any sequence of
store operations at most one changelist is flagged active, and after any
sequence consisting solely of `setActiveChangelist` calls exactly one is;
`deleteChangelist` of the active changelist, however, can leave zero active
(see the counterexample), so the claimed exactly-one invariant over all
operations does not hold. -/
theorem changelistStore_activeCount_invariant :
    (∀ ops : List StoreOp,
      (applyOps ChangelistStore.initialStore ops).activeCount ≤ 1) ∧
    (∀ ops : List StoreOp, (∀ op ∈ ops, ∃ id, op = StoreOp.setActive id) →
      (applyOps ChangelistStore.initialStore ops).activeCount = 1) := by
  constructor
  · intro ops
    exact (storeInv_applyOps ops _ storeInv_initial).2
  · intro ops hops
    exact (storeInvOne_applyOps ops _ storeInvOne_initial hops).2

/-- C2 witness: the amended invariant applied to a one-element operation
sequence. -/
theorem changelistStore_activeCount_invariant_witness :
    (applyOps ChangelistStore.initialStore [StoreOp.setActive "default"]).activeCount ≤ 1 ∧
    (applyOps ChangelistStore.initialStore [StoreOp.setActive "default"]).activeCount = 1 :=
  ⟨changelistStore_activeCount_invariant.1 [StoreOp.setActive "default"],
   changelistStore_activeCount_invariant.2 [StoreOp.setActive "default"]
     (fun _ hop => ⟨"default", List.mem_singleton.1 hop⟩)⟩

/-- C2 counterexample: creating a changelist, activating it and deleting it
leaves the store with zero active changelists — `deleteChangelist` resets the
active-id pointer but never restores the default changelist's `isActive`
flag, so the claimed exactly-one invariant fails for sequences containing
`deleteChangelist`. -/
theorem changelistStore_zero_active_counterexample :
    (applyOps ChangelistStore.initialStore zeroActiveOps).activeCount = 0 ∧
    ¬ (applyOps ChangelistStore.initialStore zeroActiveOps).activeCount = 1 := by
  constructor
  · decide
  · decide

/-- The entry a successful `mapGet` found is in the list. -/
theorem mapGet_some_mem {α : Type} (m : List (String × α)) (k : String) (w : α)
    (h : mapGet m k = some w) : (k, w) ∈ m := by
  unfold mapGet at h
  cases hf : m.find? (fun p => p.1 = k) with
  | none => rw [hf] at h; cases h
  | some p =>
    rw [hf] at h
    have hmem := List.mem_of_find?_eq_some hf
    have hpk : p.1 = k := by simpa using List.find?_some hf
    have hpw : p.2 = w := by simpa using h
    obtain ⟨p1, p2⟩ := p
    cases hpk
    cases hpw
    exact hmem

/-- An entry of `mapSet m k v` is either the written pair or an entry of the
original list. -/
theorem mem_mapSet_cases {α : Type} (m : List (String × α)) (k : String) (v : α)
    (p : String × α) (hp : p ∈ mapSet m k v) : p = (k, v) ∨ p ∈ m := by
  unfold mapSet at hp
  by_cases hany : m.any (fun q => q.1 = k) = true
  · rw [if_pos hany] at hp
    rcases List.mem_map.1 hp with ⟨q, hq, hrepl⟩
    by_cases hqk : q.1 = k
    · rw [if_pos hqk] at hrepl
      exact Or.inl hrepl.symm
    · rw [if_neg hqk] at hrepl
      exact Or.inr (hrepl ▸ hq)
  · rw [if_neg hany] at hp
    rcases List.mem_append.1 hp with hp1 | hp2
    · exact Or.inr hp1
    · exact Or.inl (List.mem_singleton.1 hp2)

/-- `addFile` grows the file list by at most one entry. -/
theorem length_addFile_le (cl : Changelist) (f : FileChange) :
    (cl.addFile f).files.length ≤ cl.files.length + 1 := by
  unfold Changelist.addFile
  split
  · exact Nat.le_succ _
  · simp

/-- Folding `addFile` grows the file list by at most the number of files
folded in. -/
theorem length_foldl_addFile_le (fs : List FileChange) (cl : Changelist) :
    (fs.foldl Changelist.addFile cl).files.length ≤ cl.files.length + fs.length := by
  induction fs generalizing cl with
  | nil => simp
  | cons f t ih =>
    rw [List.foldl_cons, List.length_cons]
    calc (t.foldl Changelist.addFile (cl.addFile f)).files.length
        ≤ (cl.addFile f).files.length + t.length := ih _
      _ ≤ (cl.files.length + 1) + t.length :=
          Nat.add_le_add_right (length_addFile_le cl f) _
      _ = cl.files.length + (t.length + 1) := by omega

/-- `addFile` keeps every existing path present. -/
theorem path_mem_addFile (cl : Changelist) (f : FileChange) (p : String)
    (hp : p ∈ cl.files.map FileChange.path) :
    p ∈ (cl.addFile f).files.map FileChange.path := by
  unfold Changelist.addFile
  split
  · exact hp
  · simp only [List.map_append]
    exact List.mem_append_left _ hp

/-- Folding `addFile` keeps every existing path present. -/
theorem path_mem_foldl_addFile (fs : List FileChange) (cl : Changelist)
    (p : String) (hp : p ∈ cl.files.map FileChange.path) :
    p ∈ (fs.foldl Changelist.addFile cl).files.map FileChange.path := by
  induction fs generalizing cl with
  | nil => exact hp
  | cons f t ih =>
    rw [List.foldl_cons]
    exact ih _ (path_mem_addFile cl f p hp)

/-- Folding `addFile` grows the file list strictly less than the number of
files folded in when one of them duplicates an existing path. -/
theorem length_foldl_addFile_lt (fs : List FileChange) (cl : Changelist)
    (f : FileChange) (hf : f ∈ fs) (hp : f.path ∈ cl.files.map FileChange.path) :
    (fs.foldl Changelist.addFile cl).files.length < cl.files.length + fs.length := by
  induction fs generalizing cl with
  | nil => cases hf
  | cons g t ih =>
    rw [List.foldl_cons, List.length_cons]
    rcases List.mem_cons.1 hf with rfl | hft
    · rw [addFile_of_path_mem cl f hp]
      calc (t.foldl Changelist.addFile cl).files.length
          ≤ cl.files.length + t.length := length_foldl_addFile_le t cl
        _ < cl.files.length + (t.length + 1) := by omega
    · calc (t.foldl Changelist.addFile (cl.addFile g)).files.length
          < (cl.addFile g).files.length + t.length :=
            ih _ hft (path_mem_addFile cl g f.path hp)
        _ ≤ (cl.files.length + 1) + t.length :=
            Nat.add_le_add_right (length_addFile_le cl g) _
        _ = cl.files.length + (t.length + 1) := by omega

/-- C8: deleting the default changelist always throws; deleting an existing
non-default changelist removes its id from the store and grows the default
changelist's file count by at most the number of deleted files — strictly
less as soon as one of the moved paths already lived in the default
changelist, because `addFile` drops duplicate paths silently. -/
theorem deleteChangelist_spec :
    (∀ st : ChangelistStore, ∃ e, st.deleteChangelist "default" = Except.error e) ∧
    (∀ (st : ChangelistStore) (id : String) (cl d : Changelist),
      id ≠ "default" →
      (∀ p ∈ st.changelists, p.2.id = p.1) →
      mapGet st.changelists id = some cl →
      mapGet st.changelists "default" = some d →
      ∃ st2 : ChangelistStore, st.deleteChangelist id = Except.ok st2 ∧
        (∀ cl2 ∈ st2.getAllChangelists, cl2.id ≠ id) ∧
        ∀ d2 : Changelist, mapGet st2.changelists "default" = some d2 →
          d2.files.length ≤ d.files.length + cl.files.length ∧
          ∀ f ∈ cl.files, f.path ∈ d.files.map FileChange.path →
            d2.files.length < d.files.length + cl.files.length) := by
  constructor
  · intro st
    refine ⟨"Cannot delete default changelist", ?_⟩
    unfold ChangelistStore.deleteChangelist
    rw [if_pos rfl]
  · intro st id cl d h1 hsync hcl hdef
    unfold ChangelistStore.deleteChangelist
    rw [if_neg h1, hcl]
    dsimp only
    by_cases h2 : cl.hasFiles = true
    · rw [if_pos h2, hdef]
      dsimp only
      refine ⟨_, rfl, ?_, ?_⟩
      · intro cl2 hcl2
        simp only [ChangelistStore.getAllChangelists] at hcl2
        rcases List.mem_map.1 hcl2 with ⟨p, hpmem, rfl⟩
        have hsplit := List.mem_filter.1 hpmem
        have hpne : ¬ p.1 = id := by simpa using hsplit.2
        rcases mem_mapSet_cases _ _ _ p hsplit.1 with rfl | hpm
        · show (cl.files.foldl Changelist.addFile d).id ≠ id
          rw [id_foldl_addFile]
          have hd : d.id = "default" := hsync ("default", d) (mapGet_some_mem _ _ _ hdef)
          rw [hd]
          exact fun hc => h1 hc.symm
        · rw [hsync p hpm]
          exact hpne
      · intro d2 hd2
        have hlook : mapGet (mapDelete
            (mapSet st.changelists "default" (cl.files.foldl Changelist.addFile d)) id)
            "default" = some (cl.files.foldl Changelist.addFile d) := by
          rw [mapGet_mapDelete_ne _ _ _ (fun hc => h1 hc.symm)]
          exact mapGet_mapSet_self _ _ _ d hdef
        rw [hlook] at hd2
        cases hd2
        refine ⟨length_foldl_addFile_le cl.files d, ?_⟩
        intro f hf hp
        exact length_foldl_addFile_lt cl.files d f hf hp
    · rw [if_neg h2]
      have hnil : cl.files = [] := by
        unfold Changelist.hasFiles at h2
        simp only [gt_iff_lt, decide_eq_true_eq, Nat.pos_iff_ne_zero] at h2
        exact List.length_eq_zero.1 (by omega)
      refine ⟨_, rfl, ?_, ?_⟩
      · intro cl2 hcl2
        simp only [ChangelistStore.getAllChangelists] at hcl2
        rcases List.mem_map.1 hcl2 with ⟨p, hpmem, rfl⟩
        have hsplit := List.mem_filter.1 hpmem
        have hpne : ¬ p.1 = id := by simpa using hsplit.2
        rw [hsync p hsplit.1]
        exact hpne
      · intro d2 hd2
        have hlook : mapGet (mapDelete st.changelists id) "default" = some d := by
          rw [mapGet_mapDelete_ne _ _ _ (fun hc => h1 hc.symm)]
          exact hdef
        rw [hlook] at hd2
        cases hd2
        rw [hnil]
        exact ⟨by simp, fun f hf => absurd hf (List.not_mem_nil f)⟩

/-- C8 witness: the theorem applied to the concrete two-changelist store. -/
theorem deleteChangelist_spec_witness :
    ("c1" : String) ≠ "default" ∧
    (∃ st2 : ChangelistStore, c8Store.deleteChangelist "c1" = Except.ok st2 ∧
      (∀ cl2 ∈ st2.getAllChangelists, cl2.id ≠ "c1") ∧
      ∀ d2 : Changelist, mapGet st2.changelists "default" = some d2 →
        d2.files.length ≤ c8DefaultChangelist.files.length
          + c8CustomChangelist.files.length ∧
        ∀ f ∈ c8CustomChangelist.files,
          f.path ∈ c8DefaultChangelist.files.map FileChange.path →
          d2.files.length < c8DefaultChangelist.files.length
            + c8CustomChangelist.files.length) :=
  ⟨by decide,
   deleteChangelist_spec.2 c8Store "c1" c8CustomChangelist c8DefaultChangelist
     (by decide) (by decide) (by rfl) (by rfl)⟩

/-- `addOrExtendChange` either appends a fresh range or rewrites only the
last range, keeping its type and start and not shrinking its end. -/
theorem addOrExtendChange_shape (changes : List LineChange) (t : ChangeType)
    (line : Int) :
    (∃ r, addOrExtendChange changes t line = changes ++ [r]) ∨
    (∃ pre lastC r, changes = pre ++ [lastC] ∧
      addOrExtendChange changes t line = pre ++ [r] ∧
      r.type = lastC.type ∧ r.startLine = lastC.startLine ∧
      lastC.endLine ≤ r.endLine) := by
  unfold addOrExtendChange
  cases hlast : changes.getLast? with
  | none => exact Or.inl ⟨_, rfl⟩
  | some lastC =>
    dsimp only
    by_cases hcond : lastC.type = t ∧ lastC.endLine = line - 1
    · rw [if_pos hcond]
      refine Or.inr ⟨changes.dropLast, lastC, { lastC with endLine := line },
        (List.dropLast_append_getLast? lastC (Option.mem_def.2 hlast)).symm,
        rfl, rfl, rfl, ?_⟩
      dsimp only
      rw [hcond.2]
      omega
    · rw [if_neg hcond]
      exact Or.inl ⟨_, rfl⟩

/-- A line that is not a well-formed hunk header leaves an out-of-hunk state
untouched. -/
theorem processDiffLine_no_header (st : ParseState) (line : String)
    (hline : ¬ (jsStartsWith line "@@" = true ∧ (searchHunk line.data).isSome = true))
    (hst : st.inHunk = false) : processDiffLine st line = st := by
  unfold processDiffLine
  by_cases h1 : jsStartsWith line "@@" = true
  · rw [if_pos h1]
    cases hs : searchHunk line.data with
    | none => rfl
    | some c => exact absurd ⟨h1, hs ▸ rfl⟩ hline
  · rw [if_neg h1, if_neg (by rw [hst]; exact Bool.false_ne_true)]

/-- Without any well-formed hunk header the whole line loop is the
identity on out-of-hunk states. -/
theorem foldl_processDiffLine_no_header (lines : List String) (st : ParseState)
    (hst : st.inHunk = false)
    (h : ∀ l ∈ lines,
      ¬ (jsStartsWith l "@@" = true ∧ (searchHunk l.data).isSome = true)) :
    lines.foldl processDiffLine st = st := by
  induction lines with
  | nil => rfl
  | cons l t ih =>
    rw [List.foldl_cons,
      processDiffLine_no_header st l (h l (List.mem_cons_self l t)) hst]
    exact ih (fun l2 hl2 => h l2 (List.mem_cons_of_mem _ hl2))

/-- C6 (amended): the parser yields the empty list when the input has no
well-formed hunk header; a malformed `@@` line is skipped without entering
hunk mode; and each step either leaves the emitted ranges alone, appends one
range at the end, or extends the last range in place — so the output list
preserves encounter order.  The further claimed no-overlap property is
false: see the counterexample, where two adjacent deleted lines produce two
identical ranges. -/
theorem parseDiff_contract :
    (∀ diff : String,
      (∀ l ∈ jsSplit diff '\n',
        ¬ (jsStartsWith l "@@" = true ∧ (searchHunk l.data).isSome = true)) →
      parseDiff diff = []) ∧
    (∀ (st : ParseState) (line : String),
      jsStartsWith line "@@" = true → searchHunk line.data = none →
      processDiffLine st line = st) ∧
    (∀ (st : ParseState) (line : String),
      (processDiffLine st line).changes = st.changes ∨
      (∃ r, (processDiffLine st line).changes = st.changes ++ [r]) ∨
      (∃ pre lastC r, st.changes = pre ++ [lastC] ∧
        (processDiffLine st line).changes = pre ++ [r] ∧
        r.type = lastC.type ∧ r.startLine = lastC.startLine ∧
        lastC.endLine ≤ r.endLine)) := by
  refine ⟨?_, ?_, ?_⟩
  · intro diff h
    unfold parseDiff
    rw [foldl_processDiffLine_no_header _ _ rfl h]
  · intro st line h1 h2
    unfold processDiffLine
    rw [if_pos h1, h2]
  · intro st line
    unfold processDiffLine
    by_cases h1 : jsStartsWith line "@@" = true
    · rw [if_pos h1]
      cases searchHunk line.data with
      | none => exact Or.inl rfl
      | some c => exact Or.inl rfl
    · rw [if_neg h1]
      by_cases h2 : st.inHunk = true
      · rw [if_pos h2]
        by_cases h3 : jsStartsWith line "+" = true
        · rw [if_pos h3]
          rcases addOrExtendChange_shape st.changes ChangeType.added st.currentLine with
            ⟨r, hr⟩ | ⟨pre, lastC, r, h4, h5, h6, h7, h8⟩
          · exact Or.inr (Or.inl ⟨r, hr⟩)
          · exact Or.inr (Or.inr ⟨pre, lastC, r, h4, h5, h6, h7, h8⟩)
        · rw [if_neg h3]
          by_cases h4 : jsStartsWith line "-" = true
          · rw [if_pos h4]
            rcases addOrExtendChange_shape st.changes ChangeType.deleted
                (st.currentLine - 1) with
              ⟨r, hr⟩ | ⟨pre, lastC, r, h5, h6, h7, h8, h9⟩
            · exact Or.inr (Or.inl ⟨r, hr⟩)
            · exact Or.inr (Or.inr ⟨pre, lastC, r, h5, h6, h7, h8, h9⟩)
          · rw [if_neg h4]
            by_cases h5 : (!jsStartsWith line "\\") = true
            · rw [if_pos h5]
              exact Or.inl rfl
            · rw [if_neg h5]
              exact Or.inl rfl
      · rw [if_neg h2]
        exact Or.inl rfl

/-- C6 witness: the amended contract applied to a header-free input and to a
malformed header line. -/
theorem parseDiff_contract_witness :
    parseDiff "hello\nworld" = [] ∧
    processDiffLine { changes := [], currentLine := 0, inHunk := false } "@@ bad"
      = { changes := [], currentLine := 0, inHunk := false } :=
  ⟨parseDiff_contract.1 "hello\nworld" (by decide),
   parseDiff_contract.2.1 { changes := [], currentLine := 0, inHunk := false }
     "@@ bad" (by decide) (by decide)⟩

/-- C6 counterexample: a genuine single-hunk diff that deletes two adjacent
lines produces two identical deleted ranges, so the output can contain
overlapping ranges. -/
theorem parseDiff_overlap_counterexample :
    parseDiff twoDeletionsDiffInput =
      [{ type := ChangeType.deleted, startLine := 0, endLine := 0 },
       { type := ChangeType.deleted, startLine := 0, endLine := 0 }] ∧
    noOverlaps (parseDiff twoDeletionsDiffInput) = false := by
  constructor
  · decide
  · decide

end Theorems

end GitPilot
